import Mathlib

/-!
Shallow embedding of src/github_scraper.py.

Python dicts whose keys and values are strings are modelled as ordered
association lists (`Entity`).  `dictSet` models the Python statement
`d[k] = v`: an existing key is updated in place (every entry holding that
key takes the new value, preserving position), a fresh key is appended at
the end, exactly as CPython's insertion-ordered dicts behave.
-/

namespace GHS

/-- A JSON entity: an insertion-ordered mapping from field name to value. -/
abbrev Entity := List (String × String)

/-- Context fields passed as keyword arguments (`**added_fields`). -/
abbrev Ctx := List (String × String)

/-- `d.get(k)`: value of the first entry with key `k`, if any. -/
def dictGet (e : Entity) (k : String) : Option String :=
  (e.find? (fun p => p.1 == k)).map Prod.snd

/-- The key list of a dict. -/
def keys (e : Entity) : List String := e.map Prod.fst

/-- `d[k] = v` on a Python dict: update in place, else append. -/
def dictSet (e : Entity) (k v : String) : Entity :=
  if e.any (fun p => p.1 == k) then
    e.map (fun p => if p.1 == k then (k, v) else p)
  else e ++ [(k, v)]

/-- `for key, value in added_fields.items(): item[key] = value`
(src/github_scraper.py lines 115-116 and 125-127). -/
def tagEntity (e : Entity) (ctx : Ctx) : Entity :=
  ctx.foldl (fun a kv => dictSet a kv.1 kv.2) e

/-- Tag every item of a fetched page (lines 125-127 mutate each item in place). -/
def tagList (es : List Entity) (ctx : Ctx) : List Entity :=
  es.map (fun e => tagEntity e ctx)

/-- Every entry with key `k` holds value `v`. -/
def allEq (e : Entity) (k v : String) : Prop :=
  ∀ p ∈ e, p.1 = k → p.2 = v

theorem any_key_iff (e : Entity) (k : String) :
    e.any (fun p => p.1 == k) = true ↔ k ∈ keys e := by
  rw [List.any_eq_true]
  unfold keys
  constructor
  · rintro ⟨p, hp, hpk⟩
    exact List.mem_map.mpr ⟨p, hp, by simpa using hpk⟩
  · intro hm
    obtain ⟨p, hp, hpk⟩ := List.mem_map.mp hm
    exact ⟨p, hp, by simp [hpk]⟩

theorem find?_update_ne (e : Entity) (k v x : String) (h : x ≠ k) :
    (e.map (fun p => if p.1 == k then (k, v) else p)).find? (fun p => p.1 == x)
      = e.find? (fun p => p.1 == x) := by
  induction e with
  | nil => rfl
  | cons q qs ih =>
    simp only [List.map_cons]
    by_cases hq : q.1 = k
    · rw [if_pos (by simp [hq])]
      rw [List.find?_cons_of_neg _ (by simp; exact fun he => h he.symm),
        List.find?_cons_of_neg _ (by simp [hq]; exact fun he => h he.symm)]
      exact ih
    · rw [if_neg (by simp [hq])]
      by_cases hqx : q.1 = x
      · rw [List.find?_cons_of_pos _ (by simp [hqx]),
          List.find?_cons_of_pos _ (by simp [hqx])]
      · rw [List.find?_cons_of_neg _ (by simp [hqx]),
          List.find?_cons_of_neg _ (by simp [hqx])]
        exact ih

theorem find?_append_ne (e : Entity) (k v x : String) (h : x ≠ k) :
    (e ++ [(k, v)]).find? (fun p => p.1 == x) = e.find? (fun p => p.1 == x) := by
  induction e with
  | nil =>
    rw [List.nil_append,
      List.find?_cons_of_neg _ (by simp; exact fun he => h he.symm)]
  | cons q qs ih =>
    rw [List.cons_append]
    by_cases hqx : q.1 = x
    · rw [List.find?_cons_of_pos _ (by simp [hqx]),
        List.find?_cons_of_pos _ (by simp [hqx])]
    · rw [List.find?_cons_of_neg _ (by simp [hqx]),
        List.find?_cons_of_neg _ (by simp [hqx])]
      exact ih

theorem find?_update_self (e : Entity) (k v : String) (hm : k ∈ keys e) :
    (e.map (fun p => if p.1 == k then (k, v) else p)).find? (fun p => p.1 == k)
      = some (k, v) := by
  induction e with
  | nil => cases hm
  | cons q qs ih =>
    simp only [List.map_cons]
    by_cases hq : q.1 = k
    · rw [if_pos (by simp [hq])]
      rw [List.find?_cons_of_pos _ (by simp)]
    · rw [if_neg (by simp [hq])]
      rw [List.find?_cons_of_neg _ (by simp [hq])]
      have hm' : k ∈ keys qs := by
        have h1 : k = q.1 ∨ k ∈ List.map Prod.fst qs := by simpa [keys] using hm
        rcases h1 with h1 | h1
        · exact absurd h1.symm hq
        · simpa [keys] using h1
      exact ih hm'

theorem find?_append_self (e : Entity) (k v : String) (hm : k ∉ keys e) :
    (e ++ [(k, v)]).find? (fun p => p.1 == k) = some (k, v) := by
  induction e with
  | nil =>
    rw [List.nil_append, List.find?_cons_of_pos _ (by simp)]
  | cons q qs ih =>
    rw [List.cons_append]
    have hq : q.1 ≠ k := fun he => hm (by simp [keys, he])
    rw [List.find?_cons_of_neg _ (by simp [hq])]
    exact ih (fun hk => hm (by simp [keys] at hk ⊢; exact Or.inr hk))

theorem mem_keys_dictSet (e : Entity) (k v x : String) :
    x ∈ keys (dictSet e k v) ↔ x ∈ keys e ∨ x = k := by
  unfold dictSet
  by_cases hmem : k ∈ keys e
  · rw [if_pos ((any_key_iff e k).mpr hmem)]
    have hkeys : keys (e.map (fun p => if p.1 == k then (k, v) else p)) = keys e := by
      unfold keys
      rw [List.map_map]
      apply List.map_congr_left
      intro p _
      by_cases h : p.1 = k
      · simp [h]
      · simp [h]
    rw [hkeys]
    constructor
    · exact Or.inl
    · rintro (h | h)
      · exact h
      · exact h ▸ hmem
  · rw [if_neg (by rw [any_key_iff]; exact hmem)]
    unfold keys
    rw [List.map_append]
    simp

theorem dictGet_dictSet_self (e : Entity) (k v : String) :
    dictGet (dictSet e k v) k = some v := by
  unfold dictGet dictSet
  by_cases hmem : k ∈ keys e
  · rw [if_pos ((any_key_iff e k).mpr hmem), find?_update_self e k v hmem]
    rfl
  · rw [if_neg (by rw [any_key_iff]; exact hmem), find?_append_self e k v hmem]
    rfl

theorem dictGet_dictSet_ne (e : Entity) (k v x : String) (h : x ≠ k) :
    dictGet (dictSet e k v) x = dictGet e x := by
  unfold dictGet dictSet
  by_cases hany : e.any (fun p => p.1 == k) = true
  · rw [if_pos hany, find?_update_ne e k v x h]
  · rw [if_neg hany, find?_append_ne e k v x h]

theorem allEq_dictSet_self (e : Entity) (k v : String) :
    allEq (dictSet e k v) k v := by
  intro p hp hpk
  unfold dictSet at hp
  by_cases hany : e.any (fun q => q.1 == k) = true
  · rw [if_pos hany] at hp
    obtain ⟨q, hq, hqp⟩ := List.mem_map.mp hp
    by_cases h : q.1 = k
    · rw [if_pos (by simp [h])] at hqp
      rw [← hqp]
    · rw [if_neg (by simp [h])] at hqp
      subst hqp
      exact absurd hpk h
  · rw [if_neg hany] at hp
    rcases List.mem_append.mp hp with hm | hm
    · rw [List.any_eq_true] at hany
      push_neg at hany
      have h2 := hany p hm
      exact absurd hpk (by simpa using h2)
    · have he : p = (k, v) := by simpa using hm
      rw [he]

theorem allEq_dictSet_ne (e : Entity) (k v x w : String) (h : x ≠ k)
    (ha : allEq e x w) : allEq (dictSet e k v) x w := by
  intro p hp hpx
  unfold dictSet at hp
  by_cases hany : e.any (fun q => q.1 == k) = true
  · rw [if_pos hany] at hp
    obtain ⟨q, hq, hqp⟩ := List.mem_map.mp hp
    by_cases hqk : q.1 = k
    · rw [if_pos (by simp [hqk])] at hqp
      rw [← hqp] at hpx
      exact absurd hpx (Ne.symm h)
    · rw [if_neg (by simp [hqk])] at hqp
      subst hqp
      exact ha q hq hpx
  · rw [if_neg hany] at hp
    rcases List.mem_append.mp hp with hm | hm
    · exact ha p hm hpx
    · have he : p = (k, v) := by simpa using hm
      rw [he] at hpx
      exact absurd hpx (Ne.symm h)

theorem dictSet_eq_self (g : Entity) (k v : String) (h1 : k ∈ keys g)
    (h2 : allEq g k v) : dictSet g k v = g := by
  unfold dictSet
  rw [if_pos ((any_key_iff g k).mpr h1)]
  conv_rhs => rw [← List.map_id g]
  apply List.map_congr_left
  intro p hp
  by_cases hpk : p.1 = k
  · rw [if_pos (by simp [hpk])]
    have h2' := h2 p hp hpk
    simp only [id_eq]
    rw [← hpk, ← h2']
  · rw [if_neg (by simp [hpk])]
    simp

theorem tagEntity_nil (e : Entity) : tagEntity e [] = e := rfl

theorem tagEntity_cons (e : Entity) (k v : String) (c : Ctx) :
    tagEntity e ((k, v) :: c) = tagEntity (dictSet e k v) c := rfl

theorem mem_keys_tagEntity (e : Entity) (c : Ctx) (x : String) :
    x ∈ keys (tagEntity e c) ↔ x ∈ keys e ∨ x ∈ c.map Prod.fst := by
  induction c generalizing e with
  | nil => simp [tagEntity_nil]
  | cons kv rest ih =>
    rw [show kv = (kv.1, kv.2) from rfl, tagEntity_cons, ih, mem_keys_dictSet]
    simp
    tauto

theorem dictGet_tagEntity_not_mem (e : Entity) (c : Ctx) (k : String)
    (h : k ∉ c.map Prod.fst) : dictGet (tagEntity e c) k = dictGet e k := by
  induction c generalizing e with
  | nil => rfl
  | cons kv rest ih =>
    rw [show kv = (kv.1, kv.2) from rfl, tagEntity_cons]
    have hk1 : k ≠ kv.1 := fun he =>
      h (by rw [List.map_cons, he]; exact List.mem_cons_self kv.1 (List.map Prod.fst rest))
    rw [ih (dictSet e kv.1 kv.2)
        (fun hm => h (by rw [List.map_cons]; exact List.mem_cons_of_mem kv.1 hm)),
      dictGet_dictSet_ne e kv.1 kv.2 k hk1]

theorem allEq_tagEntity_not_mem (e : Entity) (c : Ctx) (k v : String)
    (h : k ∉ c.map Prod.fst) (ha : allEq e k v) : allEq (tagEntity e c) k v := by
  induction c generalizing e with
  | nil => exact ha
  | cons kv rest ih =>
    rw [show kv = (kv.1, kv.2) from rfl, tagEntity_cons]
    exact ih (dictSet e kv.1 kv.2)
      (fun hm => h (by rw [List.map_cons]; exact List.mem_cons_of_mem kv.1 hm))
      (allEq_dictSet_ne e kv.1 kv.2 k v
        (fun he => h (by rw [List.map_cons, he]
                         exact List.mem_cons_self kv.1 (List.map Prod.fst rest))) ha)

theorem allEq_tagEntity_mem (e : Entity) (c : Ctx) (k v : String)
    (hnd : (c.map Prod.fst).Nodup) (hm : (k, v) ∈ c) :
    allEq (tagEntity e c) k v ∧ k ∈ keys (tagEntity e c) := by
  induction c generalizing e with
  | nil => cases hm
  | cons kv rest ih =>
    rw [show kv = (kv.1, kv.2) from rfl, tagEntity_cons]
    simp only [List.map_cons, List.nodup_cons] at hnd
    rcases List.mem_cons.mp hm with h | h
    · have hk : kv.1 = k := by rw [← h]
      have hv : kv.2 = v := by rw [← h]
      rw [hk, hv]
      have hnotin : k ∉ rest.map Prod.fst := hk ▸ hnd.1
      constructor
      · exact allEq_tagEntity_not_mem _ rest k v hnotin (allEq_dictSet_self e k v)
      · rw [mem_keys_tagEntity]
        exact Or.inl ((mem_keys_dictSet e k v k).mpr (Or.inr rfl))
    · exact ih (dictSet e kv.1 kv.2) hnd.2 h

theorem tagEntity_fix (g : Entity) (c : Ctx)
    (h : ∀ p ∈ c, p.1 ∈ keys g ∧ allEq g p.1 p.2) : tagEntity g c = g := by
  induction c with
  | nil => rfl
  | cons kv rest ih =>
    rw [show kv = (kv.1, kv.2) from rfl, tagEntity_cons]
    have hkv := h kv (List.mem_cons_self kv rest)
    rw [dictSet_eq_self g kv.1 kv.2 hkv.1 hkv.2]
    exact ih (fun p hp => h p (List.mem_cons_of_mem kv hp))

theorem tagEntity_idem (e : Entity) (c : Ctx) (hnd : (c.map Prod.fst).Nodup) :
    tagEntity (tagEntity e c) c = tagEntity e c := by
  apply tagEntity_fix
  intro p hp
  have := allEq_tagEntity_mem e c p.1 p.2 hnd (by simpa using hp)
  exact ⟨this.2, this.1⟩

theorem dictGet_eq_of_allEq (g : Entity) (k v : String) (h1 : k ∈ keys g)
    (h2 : allEq g k v) : dictGet g k = some v := by
  induction g with
  | nil => cases h1
  | cons q qs ih =>
    unfold dictGet
    by_cases hq : q.1 = k
    · rw [List.find?_cons_of_pos _ (by simp [hq])]
      simp [h2 q (List.mem_cons_self q qs) hq]
    · rw [List.find?_cons_of_neg _ (by simp [hq])]
      have h1m : k ∈ keys qs := by
        have h1' : k = q.1 ∨ k ∈ List.map Prod.fst qs := by simpa [keys] using h1
        rcases h1' with h | h
        · exact absurd h.symm hq
        · simpa [keys] using h
      exact ih h1m (fun p hp => h2 p (List.mem_cons_of_mem q hp))

theorem dictGet_tagEntity_mem (e : Entity) (c : Ctx) (k v : String)
    (hnd : (c.map Prod.fst).Nodup) (hm : (k, v) ∈ c) :
    dictGet (tagEntity e c) k = some v := by
  have := allEq_tagEntity_mem e c k v hnd hm
  exact dictGet_eq_of_allEq _ k v this.2 this.1

/-! ### call_api (src/github_scraper.py lines 94-130) -/

/-- Python `url.split("/")` acting on the character list: separator-preserving
split that keeps empty segments, as `str.split` with an explicit separator does. -/
def splitOnSlash : List Char → List (List Char)
  | [] => [[]]
  | c :: rest =>
    if c = '/' then [] :: splitOnSlash rest
    else
      match splitOnSlash rest with
      | [] => [[c]]
      | h :: t => (c :: h) :: t

/-- `url.split("/")` as a list of strings. -/
def urlSegments (url : String) : List String :=
  (splitOnSlash url.toList).map (fun l => String.mk l)

/-- `url.split("/")[-2]`: `none` models the IndexError raised when the split
has fewer than two segments. -/
def secondToLast (url : String) : Option String :=
  let parts := urlSegments url
  if h : 2 ≤ parts.length then some (parts.get ⟨parts.length - 2, by omega⟩)
  else none

/-- The `while True` pagination loop of call_api (lines 120-129): request page
`page` (`per_page=100`), stop on an empty page, otherwise tag the page's items
with the added fields and keep the concatenation.  `fuel` bounds the number of
iterations we unfold; `none` models a loop that has not yet terminated. -/
def callApiLoop (server : Nat → List Entity) (ctx : Ctx) (page fuel : Nat) :
    Option (List Entity) :=
  match fuel with
  | 0 => none
  | fuel + 1 =>
    if server page = [] then some []
    else
      match callApiLoop server ctx (page + 1) fuel with
      | none => none
      | some rest => some (tagList (server page) ctx ++ rest)

/-- call_api (lines 94-130).  `server p` is the JSON array answering
`url?per_page=100&page=p`; `userObj` is the single JSON object answering a
`users/...` URL.  A URL whose second-to-last segment is `users` is fetched
once, tagged and wrapped in a one-element list; every other URL paginates. -/
def call_api (url : String) (server : Nat → List Entity) (userObj : Entity)
    (ctx : Ctx) (fuel : Nat) : Option (List Entity) :=
  match secondToLast url with
  | none => none
  | some s =>
    if s = "users" then some [tagEntity userObj ctx]
    else callApiLoop server ctx 1 fuel

theorem callApiLoop_eq (server : Nat → List Entity) (ctx : Ctx) (N : Nat)
    (hN : server N = []) :
    ∀ fuel p, p ≤ N → N - p < fuel → (∀ i, p ≤ i → i < N → server i ≠ []) →
      callApiLoop server ctx p fuel
        = some (((List.range' p (N - p)).map
            (fun i => tagList (server i) ctx)).flatten) := by
  intro fuel
  induction fuel with
  | zero =>
    intro p _ hf _
    omega
  | succ fuel ih =>
    intro p hp hf hne
    by_cases hpN : p = N
    · subst hpN
      unfold callApiLoop
      simp [hN]
    · have hlt : p < N := lt_of_le_of_ne hp hpN
      have hnep : server p ≠ [] := hne p le_rfl hlt
      unfold callApiLoop
      rw [if_neg hnep,
        ih (p + 1) hlt (by omega) (fun i h1 h2 => hne i (by omega) h2)]
      rw [show N - p = (N - (p + 1)) + 1 by omega, List.range'_succ]
      simp

/-! ### load_json (src/github_scraper.py lines 66-92) -/

/-- Outcome of one completed task: a fetched entity list, an
`aiohttp.ContentTypeError` raised while decoding (e.g. an empty repository),
or any other exception (e.g. a network error). -/
inductive TaskOutcome where
  | ok (items : List Entity)
  | contentTypeError
  | networkError
deriving DecidableEq

/-- Body of the `for task in done` loop: `await task` re-raises the task's
exception; only `aiohttp.ContentTypeError` is caught (and skipped). -/
def loadJsonStep (acc : List Entity) (t : TaskOutcome) :
    Except String (List Entity) :=
  match t with
  | TaskOutcome.ok items => Except.ok (acc ++ items)
  | TaskOutcome.contentTypeError => Except.ok acc
  | TaskOutcome.networkError => Except.error "unhandled exception"

/-- load_json (lines 66-92).  `done` is the iteration order of the set
returned by `asyncio.wait` — an arbitrary permutation of the batch.  An
uncaught exception aborts the whole aggregation (`Except.error`). -/
def load_json (done : List TaskOutcome) : Except String (List Entity) :=
  done.foldlM loadJsonStep []

/-- Contribution of a completed task to the aggregate: its items when it
succeeded, nothing when it raised a decode error. -/
def okItems : TaskOutcome → List Entity
  | TaskOutcome.ok items => items
  | _ => []

theorem loadJson_go (done : List TaskOutcome)
    (h : TaskOutcome.networkError ∉ done) :
    ∀ acc, done.foldlM loadJsonStep acc
      = Except.ok (acc ++ (done.map okItems).flatten) := by
  induction done with
  | nil => intro acc; simp [List.foldlM]; rfl
  | cons t rest ih =>
    intro acc
    have hrest : TaskOutcome.networkError ∉ rest :=
      fun hm => h (List.mem_cons_of_mem t hm)
    cases t with
    | ok items =>
      simp only [List.foldlM, loadJsonStep]
      rw [show ((Except.ok (acc ++ items) : Except String (List Entity)) >>=
          fun acc => rest.foldlM loadJsonStep acc) = rest.foldlM loadJsonStep (acc ++ items)
        from rfl]
      rw [ih hrest (acc ++ items)]
      simp [okItems, List.append_assoc]
    | contentTypeError =>
      simp only [List.foldlM, loadJsonStep]
      rw [show ((Except.ok acc : Except String (List Entity)) >>=
          fun acc => rest.foldlM loadJsonStep acc) = rest.foldlM loadJsonStep acc
        from rfl]
      rw [ih hrest acc]
      simp [okItems]
    | networkError =>
      exact absurd (List.mem_cons_self _ _) h

/-! ### generate_csv (src/github_scraper.py lines 132-150) -/

/-- One output row of `csv.DictWriter` with `extrasaction="ignore"` and the
default `restval` (None, rendered as the empty string): one cell per declared
column, `rowdict.get(key, restval)`. -/
def projectRow (columns_list : List String) (item : Entity) : List String :=
  columns_list.map (fun c => (dictGet item c).getD "")

/-- generate_csv (lines 132-150): the data rows written, one per entity,
in entity order. -/
def generate_csv (json_list : List Entity) (columns_list : List String) :
    List (List String) :=
  json_list.map (fun item => projectRow columns_list item)

/-! ### networkx.DiGraph

Nodes and edges are kept in insertion order, each with an attribute dict.
`add_node` on an existing node updates its attribute dict in place
(`dict.update`); `add_edge` creates missing endpoint nodes with empty
attributes and updates the attribute dict of an existing (u, v) edge
(a simple digraph: parallel edges collapse). -/

structure DiGraph where
  nodes : List (String × Ctx)
  edges : List (String × String × Ctx)

def emptyGraph : DiGraph := ⟨[], []⟩

def add_node (g : DiGraph) (n : String) (attrs : Ctx) : DiGraph :=
  if g.nodes.any (fun p => p.1 == n) then
    { g with nodes := g.nodes.map (fun p => if p.1 == n then (n, tagEntity p.2 attrs) else p) }
  else { g with nodes := g.nodes ++ [(n, attrs)] }

/-- `add_edge` creates a missing endpoint node with an empty attribute dict. -/
def addNodeIfAbsent (g : DiGraph) (n : String) : DiGraph :=
  if g.nodes.any (fun p => p.1 == n) then g
  else { g with nodes := g.nodes ++ [(n, [])] }

def add_edge (g : DiGraph) (u v : String) (attrs : Ctx) : DiGraph :=
  let g2 : DiGraph := addNodeIfAbsent (addNodeIfAbsent g u) v
  if g2.edges.any (fun e => e.1 == u && e.2.1 == v) then
    { g2 with edges := g2.edges.map (fun e =>
        if e.1 == u && e.2.1 == v then (u, v, tagEntity e.2.2 attrs) else e) }
  else { g2 with edges := g2.edges ++ [(u, v, attrs)] }

def hasNode (g : DiGraph) (n : String) : Bool :=
  g.nodes.any (fun p => p.1 == n)

def hasEdge (g : DiGraph) (u v : String) : Bool :=
  g.edges.any (fun e => e.1 == u && e.2.1 == v)

def nodeAttrs (g : DiGraph) (n : String) : Option Ctx :=
  (g.nodes.find? (fun p => p.1 == n)).map Prod.snd

def edgeAttrs (g : DiGraph) (u v : String) : Option Ctx :=
  (g.edges.find? (fun e => e.1 == u && e.2.1 == v)).map (fun e => e.2.2)

/-! ### generate_follower_network (lines 290-369) -/

/-- One follower entity per (org, member, follower-login), in task order:
login of the follower, the member it follows, and the tagging org. -/
def followerTriples (orgs : List String) (members : String → List String)
    (followersOf : String → List String) : List (String × String × String) :=
  orgs.flatMap (fun org => (members org).flatMap (fun m =>
    (followersOf m).map (fun l => (l, m, org))))

/-- One following entity per (org, member, followed-login): the member
(`followed_by`), the login it follows, and the tagging org. -/
def followingTriples (orgs : List String) (members : String → List String)
    (followingOf : String → List String) : List (String × String × String) :=
  orgs.flatMap (fun org => (members org).flatMap (fun m =>
    (followingOf m).map (fun l => (m, l, org))))

/-- Lines 305-311: both graphs start with every member as a node carrying
its organization. -/
def initMemberGraph (orgs : List String) (members : String → List String) : DiGraph :=
  orgs.foldl
    (fun g org => (members org).foldl
      (fun g m => add_node g m [("organization", org)]) g)
    emptyGraph

/-- The full graph: every triple becomes an edge tagged with the org. -/
def addFullEdges (g : DiGraph) (triples : List (String × String × String)) : DiGraph :=
  triples.foldl (fun g t => add_edge g t.1 t.2.1 [("organization", t.2.2)]) g

/-- The narrow graph, follower direction (lines 341-346): the edge is added
only when the follower's login is a member of the subject's original org. -/
def addNarrowFollowerEdges (members : String → List String) (g : DiGraph)
    (triples : List (String × String × String)) : DiGraph :=
  triples.foldl
    (fun g t => if (members t.2.2).contains t.1
      then add_edge g t.1 t.2.1 [("organization", t.2.2)] else g)
    g

/-- The narrow graph, following direction (lines 353-358): the edge is added
only when the followed login is a member of the subject's original org. -/
def addNarrowFollowingEdges (members : String → List String) (g : DiGraph)
    (triples : List (String × String × String)) : DiGraph :=
  triples.foldl
    (fun g t => if (members t.2.2).contains t.2.1
      then add_edge g t.1 t.2.1 [("organization", t.2.2)] else g)
    g

/-- generate_follower_network (lines 290-369): returns
(graph_full, graph_narrow). -/
def generate_follower_network (orgs : List String) (members : String → List String)
    (followersOf followingOf : String → List String) : DiGraph × DiGraph :=
  let init := initMemberGraph orgs members
  let fTr := followerTriples orgs members followersOf
  let gTr := followingTriples orgs members followingOf
  (addFullEdges (addFullEdges init fTr) gTr,
   addNarrowFollowingEdges members (addNarrowFollowerEdges members init fTr) gTr)

/-! ### generate_memberships_network (lines 371-399) -/

/-- One membership entity per (org, member, org-login): the scraped member,
the login of an organization it belongs to, and the tagging org. -/
def membershipTriples (orgs : List String) (members : String → List String)
    (orgsOf : String → List String) : List (String × String × String) :=
  orgs.flatMap (fun org => (members org).flatMap (fun m =>
    (orgsOf m).map (fun l => (m, l, org))))

/-- generate_memberships_network (lines 388-394): per membership entity,
`add_node(member, node_type="user")` then
`add_edge(member, login, node_type="organization")` — note that the
`node_type` keyword lands on the **edge** attribute dict. -/
def generate_memberships_network (orgs : List String)
    (members : String → List String) (orgsOf : String → List String) : DiGraph :=
  (membershipTriples orgs members orgsOf).foldl
    (fun g t => add_edge (add_node g t.1 [("node_type", "user")])
      t.1 t.2.1 [("node_type", "organization")])
    emptyGraph

/-! ### get_repo_contributors (lines 178-215) -/

/-- Lines 191-199: one request per (org, repo) pair where `repo` ranges over
the *pooled* repository list of all organizations; the returned URL and the
context fields tagged onto each contributor entity. -/
def contribRequests (orgs : List String) (repoNames : List String) :
    List (String × Ctx) :=
  orgs.flatMap (fun org => repoNames.map (fun rn =>
    ("https://api.github.com/repos/" ++ org ++ "/" ++ rn ++ "/contributors",
     [("organization", org), ("repository", rn)])))

/-- One contributor triple per (org, repo, contributor-login), in task order. -/
def contributorTriples (orgs : List String) (repoNames : List String)
    (contribsOf : String → String → List String) : List (String × String × String) :=
  orgs.flatMap (fun org => repoNames.flatMap (fun rn =>
    (contribsOf org rn).map (fun l => (l, rn, org))))

/-- Lines 202-210: per contributor entity,
`add_node(repository, organization=org)` then
`add_edge(login, repository, organization=org)`. -/
def contributor_graph (triples : List (String × String × String)) : DiGraph :=
  triples.foldl
    (fun g t => add_edge (add_node g t.2.1 [("organization", t.2.2)])
      t.1 t.2.1 [("organization", t.2.2)])
    emptyGraph

/-! ### main (lines 447-558) -/

/-- The boolean argparse flags, in declaration order (lines 456-517);
the `dest` of each operation flag is the method name. -/
structure Args where
  all : Bool
  create_org_repo_csv : Bool
  get_repo_contributors : Bool
  get_members_repos : Bool
  get_members_info : Bool
  get_starred_repos : Bool
  generate_follower_network : Bool
  generate_memberships_network : Bool
deriving DecidableEq

/-- `vars(argparser.parse_args())` as an ordered mapping. -/
def argsList (a : Args) : List (String × Bool) :=
  [("all", a.all),
   ("create_org_repo_csv", a.create_org_repo_csv),
   ("get_repo_contributors", a.get_repo_contributors),
   ("get_members_repos", a.get_members_repos),
   ("get_members_info", a.get_members_info),
   ("get_starred_repos", a.get_starred_repos),
   ("generate_follower_network", a.generate_follower_network),
   ("generate_memberships_network", a.generate_memberships_network)]

/-- An observable step of main: loading the member index, loading the repo
index, or running one selected operation method. -/
inductive Action where
  | loadMembers
  | loadRepos
  | runOp (name : String)
deriving DecidableEq

/-- Line 531-537. -/
def require_members : List String :=
  ["get_members_repos", "get_members_info", "get_starred_repos",
   "generate_follower_network", "generate_memberships_network"]

/-- Line 538. -/
def require_repos : List String :=
  ["create_org_repo_csv", "get_repo_contributors"]

/-- main (lines 520-558) as the sequence of actions it performs: exit when no
flag is set; with `--all`, load both indices then run every operation; else
load an index iff some selected operation requires it, then run the selected
operations in argparse order. -/
def mainTrace (a : Args) : List Action :=
  if ¬ (argsList a).any (fun p => p.2) then []
  else if a.all then
    Action.loadMembers :: Action.loadRepos ::
      ((argsList a).filter (fun p => ¬ p.1 == "all")).map (fun p => Action.runOp p.1)
  else
    let called_args := ((argsList a).filter (fun p => p.2)).map Prod.fst
    (if called_args.any (fun arg => require_members.contains arg)
      then [Action.loadMembers] else [])
    ++ (if called_args.any (fun arg => require_repos.contains arg)
      then [Action.loadRepos] else [])
    ++ called_args.map (fun arg => Action.runOp arg)

/-- The operation names the user selected (the true flags other than --all). -/
def selectedOps (a : Args) : List String :=
  ((argsList a).filter (fun p => p.2)).map Prod.fst

/-! ### Generic association-list and fold lemmas -/

theorem foldl_inv {σ α : Type} (P : σ → Prop) (f : σ → α → σ)
    (hf : ∀ s x, P s → P (f s x)) :
    ∀ (l : List α) (s : σ), P s → P (l.foldl f s) := by
  intro l
  induction l with
  | nil => intro s hs; exact hs
  | cons x xs ih => intro s hs; exact ih (f s x) (hf s x hs)

theorem any_iff_find?_isSome {α : Type} (l : List α) (p : α → Bool) :
    l.any p = true ↔ (l.find? p).isSome = true := by
  induction l with
  | nil => simp [List.find?]
  | cons x xs ih =>
    cases hx : p x with
    | true => simp [List.any_cons, hx, List.find?_cons_of_pos _ hx]
    | false =>
      rw [List.any_cons, hx, List.find?_cons_of_neg _ (by simp [hx])]
      simp only [Bool.false_or]
      exact ih

theorem find?_key_append_ne {α : Type} (l : List (String × α)) (x : String × α)
    (k : String) (h : k ≠ x.1) :
    ((l ++ [x]).find? (fun p => p.1 == k)) = l.find? (fun p => p.1 == k) := by
  induction l with
  | nil =>
    rw [List.nil_append,
      List.find?_cons_of_neg _ (by simp; exact fun he => h he.symm)]
  | cons q qs ih =>
    rw [List.cons_append]
    by_cases hq : q.1 = k
    · rw [List.find?_cons_of_pos _ (by simp [hq]),
        List.find?_cons_of_pos _ (by simp [hq])]
    · rw [List.find?_cons_of_neg _ (by simp [hq]),
        List.find?_cons_of_neg _ (by simp [hq])]
      exact ih

theorem find?_key_append_self {α : Type} (l : List (String × α)) (x : String × α)
    (h : l.find? (fun p => p.1 == x.1) = none) :
    ((l ++ [x]).find? (fun p => p.1 == x.1)) = some x := by
  induction l with
  | nil => rw [List.nil_append, List.find?_cons_of_pos _ (by simp)]
  | cons q qs ih =>
    rw [List.cons_append]
    by_cases hq : q.1 = x.1
    · rw [List.find?_cons_of_pos _ (by simp [hq])] at h
      cases h
    · rw [List.find?_cons_of_neg _ (by simp [hq])]
      rw [List.find?_cons_of_neg _ (by simp [hq])] at h
      exact ih h

theorem find?_key_map_update_ne {α : Type} (l : List (String × α)) (n : String)
    (f : String × α → α) (k : String) (h : k ≠ n) :
    ((l.map (fun p => if p.1 == n then (n, f p) else p)).find? (fun p => p.1 == k))
      = l.find? (fun p => p.1 == k) := by
  induction l with
  | nil => rfl
  | cons q qs ih =>
    simp only [List.map_cons]
    by_cases hq : q.1 = n
    · rw [if_pos (by simp [hq])]
      rw [List.find?_cons_of_neg _ (by simp; exact fun he => h he.symm),
        List.find?_cons_of_neg _ (by simp [hq]; exact fun he => h he.symm)]
      exact ih
    · rw [if_neg (by simp [hq])]
      by_cases hqk : q.1 = k
      · rw [List.find?_cons_of_pos _ (by simp [hqk]),
          List.find?_cons_of_pos _ (by simp [hqk])]
      · rw [List.find?_cons_of_neg _ (by simp [hqk]),
          List.find?_cons_of_neg _ (by simp [hqk])]
        exact ih

theorem find?_key_map_update_self {α : Type} (l : List (String × α)) (n : String)
    (f : String × α → α) (q : String × α)
    (h : l.find? (fun p => p.1 == n) = some q) :
    ((l.map (fun p => if p.1 == n then (n, f p) else p)).find? (fun p => p.1 == n))
      = some (n, f q) := by
  induction l with
  | nil => cases h
  | cons x xs ih =>
    simp only [List.map_cons]
    by_cases hx : x.1 = n
    · rw [List.find?_cons_of_pos _ (by simp [hx])] at h
      rw [if_pos (by simp [hx]), List.find?_cons_of_pos _ (by simp)]
      cases h
      rfl
    · rw [List.find?_cons_of_neg _ (by simp [hx])] at h
      rw [if_neg (by simp [hx]), List.find?_cons_of_neg _ (by simp [hx])]
      exact ih h

/-! ### Basic facts about the graph operations -/

theorem nodes_addNodeIfAbsent (g : DiGraph) (n : String) :
    (addNodeIfAbsent g n).nodes
      = if g.nodes.any (fun p => p.1 == n) then g.nodes else g.nodes ++ [(n, [])] := by
  unfold addNodeIfAbsent
  split_ifs <;> rfl

theorem edges_addNodeIfAbsent (g : DiGraph) (n : String) :
    (addNodeIfAbsent g n).edges = g.edges := by
  unfold addNodeIfAbsent
  split_ifs <;> rfl

theorem nodes_add_node (g : DiGraph) (n : String) (attrs : Ctx) :
    (add_node g n attrs).nodes
      = if g.nodes.any (fun p => p.1 == n) then
          g.nodes.map (fun p => if p.1 == n then (n, tagEntity p.2 attrs) else p)
        else g.nodes ++ [(n, attrs)] := by
  unfold add_node
  split_ifs <;> rfl

theorem edges_add_node (g : DiGraph) (n : String) (attrs : Ctx) :
    (add_node g n attrs).edges = g.edges := by
  unfold add_node
  split_ifs <;> rfl

theorem nodes_add_edge (g : DiGraph) (u v : String) (attrs : Ctx) :
    (add_edge g u v attrs).nodes = (addNodeIfAbsent (addNodeIfAbsent g u) v).nodes := by
  simp only [add_edge]
  split_ifs <;> rfl

theorem edges_add_edge (g : DiGraph) (u v : String) (attrs : Ctx) :
    (add_edge g u v attrs).edges
      = if g.edges.any (fun e => e.1 == u && e.2.1 == v) then
          g.edges.map (fun e =>
            if e.1 == u && e.2.1 == v then (u, v, tagEntity e.2.2 attrs) else e)
        else g.edges ++ [(u, v, attrs)] := by
  simp only [add_edge]
  rw [show (addNodeIfAbsent (addNodeIfAbsent g u) v).edges = g.edges by
    rw [edges_addNodeIfAbsent, edges_addNodeIfAbsent]]
  split_ifs <;> rfl

theorem any_edgekey_map_update (l : List (String × String × Ctx)) (u v x y : String)
    (f : String × String × Ctx → Ctx) :
    ((l.map (fun e => if e.1 == u && e.2.1 == v then (u, v, f e) else e)).any
        (fun e => e.1 == x && e.2.1 == y))
      = l.any (fun e => e.1 == x && e.2.1 == y) := by
  induction l with
  | nil => rfl
  | cons e es ih =>
    simp only [List.map_cons, List.any_cons]
    rw [ih]
    congr 1
    by_cases hm : (e.1 == u && e.2.1 == v) = true
    · rw [if_pos hm]
      simp only [Bool.and_eq_true, beq_iff_eq] at hm
      simp [hm.1, hm.2]
    · rw [if_neg hm]

theorem any_key_map_update {α : Type} (l : List (String × α)) (n : String)
    (f : String × α → α) (m : String) :
    ((l.map (fun p => if p.1 == n then (n, f p) else p)).any (fun p => p.1 == m))
      = l.any (fun p => p.1 == m) := by
  induction l with
  | nil => rfl
  | cons q qs ih =>
    simp only [List.map_cons, List.any_cons]
    rw [ih]
    congr 1
    by_cases hq : q.1 = n
    · rw [if_pos (by simp [hq])]
      simp [hq]
    · rw [if_neg (by simp [hq])]

theorem hasEdge_add_edge (g : DiGraph) (u v : String) (a : Ctx) (x y : String) :
    hasEdge (add_edge g u v a) x y = true
      ↔ hasEdge g x y = true ∨ (x = u ∧ y = v) := by
  unfold hasEdge
  rw [edges_add_edge]
  by_cases hc : g.edges.any (fun e => e.1 == u && e.2.1 == v) = true
  · rw [if_pos hc, any_edgekey_map_update]
    constructor
    · exact Or.inl
    · rintro (h | ⟨hx, hy⟩)
      · exact h
      · subst hx; subst hy; exact hc
  · rw [if_neg hc, List.any_append]
    simp only [List.any_cons, List.any_nil, Bool.or_false, Bool.or_eq_true,
      Bool.and_eq_true, beq_iff_eq]
    constructor
    · rintro (h | ⟨h1, h2⟩)
      · exact Or.inl h
      · exact Or.inr ⟨h1.symm, h2.symm⟩
    · rintro (h | ⟨h1, h2⟩)
      · exact Or.inl h
      · exact Or.inr ⟨h1.symm, h2.symm⟩

theorem hasNode_addNodeIfAbsent (g : DiGraph) (n m : String) :
    hasNode (addNodeIfAbsent g n) m = true ↔ hasNode g m = true ∨ m = n := by
  unfold hasNode
  rw [nodes_addNodeIfAbsent]
  by_cases hc : g.nodes.any (fun p => p.1 == n) = true
  · rw [if_pos hc]
    constructor
    · exact Or.inl
    · rintro (h | h)
      · exact h
      · subst h; exact hc
  · rw [if_neg hc, List.any_append]
    simp only [List.any_cons, List.any_nil, Bool.or_false, Bool.or_eq_true, beq_iff_eq]
    constructor
    · rintro (h | h)
      · exact Or.inl h
      · exact Or.inr h.symm
    · rintro (h | h)
      · exact Or.inl h
      · exact Or.inr h.symm

theorem hasNode_add_edge (g : DiGraph) (u v : String) (a : Ctx) (m : String) :
    hasNode (add_edge g u v a) m = true
      ↔ hasNode g m = true ∨ m = u ∨ m = v := by
  rw [show hasNode (add_edge g u v a) m
      = hasNode (addNodeIfAbsent (addNodeIfAbsent g u) v) m by
    unfold hasNode; rw [nodes_add_edge]]
  rw [hasNode_addNodeIfAbsent, hasNode_addNodeIfAbsent]
  tauto

theorem hasNode_add_node (g : DiGraph) (n : String) (attrs : Ctx) (m : String) :
    hasNode (add_node g n attrs) m = true ↔ hasNode g m = true ∨ m = n := by
  unfold hasNode
  rw [nodes_add_node]
  by_cases hc : g.nodes.any (fun p => p.1 == n) = true
  · rw [if_pos hc, any_key_map_update]
    constructor
    · exact Or.inl
    · rintro (h | h)
      · exact h
      · subst h; exact hc
  · rw [if_neg hc, List.any_append]
    simp only [List.any_cons, List.any_nil, Bool.or_false, Bool.or_eq_true, beq_iff_eq]
    constructor
    · rintro (h | h)
      · exact Or.inl h
      · exact Or.inr h.symm
    · rintro (h | h)
      · exact Or.inl h
      · exact Or.inr h.symm

theorem nodeAttrs_addNodeIfAbsent_of_hasNode (g : DiGraph) (n m : String)
    (h : hasNode g m = true) :
    nodeAttrs (addNodeIfAbsent g n) m = nodeAttrs g m := by
  unfold nodeAttrs
  rw [nodes_addNodeIfAbsent]
  by_cases hc : g.nodes.any (fun p => p.1 == n) = true
  · rw [if_pos hc]
  · rw [if_neg hc]
    have hmn : m ≠ n := fun he => hc (he ▸ h)
    rw [find?_key_append_ne _ (n, ([] : Ctx)) m hmn]

theorem nodeAttrs_add_edge_of_hasNode (g : DiGraph) (u v : String) (a : Ctx)
    (m : String) (h : hasNode g m = true) :
    nodeAttrs (add_edge g u v a) m = nodeAttrs g m := by
  have h1 : hasNode (addNodeIfAbsent g u) m = true :=
    (hasNode_addNodeIfAbsent g u m).mpr (Or.inl h)
  calc nodeAttrs (add_edge g u v a) m
      = nodeAttrs (addNodeIfAbsent (addNodeIfAbsent g u) v) m := by
        unfold nodeAttrs; rw [nodes_add_edge]
    _ = nodeAttrs (addNodeIfAbsent g u) m :=
        nodeAttrs_addNodeIfAbsent_of_hasNode _ v m h1
    _ = nodeAttrs g m := nodeAttrs_addNodeIfAbsent_of_hasNode g u m h

theorem nodeAttrs_add_node_ne (g : DiGraph) (n : String) (attrs : Ctx) (m : String)
    (h : m ≠ n) :
    nodeAttrs (add_node g n attrs) m = nodeAttrs g m := by
  unfold nodeAttrs
  rw [nodes_add_node]
  by_cases hc : g.nodes.any (fun p => p.1 == n) = true
  · rw [if_pos hc, find?_key_map_update_ne _ n _ m h]
  · rw [if_neg hc, find?_key_append_ne _ (n, attrs) m h]

theorem nodeAttrs_add_node_self (g : DiGraph) (n : String) (attrs : Ctx) :
    ∃ a, nodeAttrs (add_node g n attrs) n = some a ∧
      (a = attrs ∨ ∃ old, nodeAttrs g n = some old ∧ a = tagEntity old attrs) := by
  unfold nodeAttrs
  rw [nodes_add_node]
  by_cases hc : g.nodes.any (fun p => p.1 == n) = true
  · have hfind : (g.nodes.find? (fun p => p.1 == n)).isSome = true :=
      (any_iff_find?_isSome _ _).mp hc
    obtain ⟨q, hq⟩ := Option.isSome_iff_exists.mp hfind
    rw [if_pos hc, find?_key_map_update_self _ n _ q hq]
    refine ⟨tagEntity q.2 attrs, rfl, Or.inr ⟨q.2, ?_, rfl⟩⟩
    rw [hq]
    rfl
  · rw [if_neg hc]
    have hnone : g.nodes.find? (fun p => p.1 == n) = none := by
      cases hf : g.nodes.find? (fun p => p.1 == n) with
      | none => rfl
      | some q =>
        exact absurd ((any_iff_find?_isSome _ _).mpr (by rw [hf]; rfl)) hc
    rw [find?_key_append_self _ (n, attrs) hnone]
    exact ⟨attrs, rfl, Or.inl rfl⟩

/-! ### Edge membership of the follower-network folds -/

theorem hasEdge_addFullEdges (g : DiGraph) (triples : List (String × String × String))
    (x y : String) :
    hasEdge (addFullEdges g triples) x y = true ↔
      hasEdge g x y = true ∨ ∃ t ∈ triples, t.1 = x ∧ t.2.1 = y := by
  induction triples generalizing g with
  | nil => simp [addFullEdges]
  | cons t ts ih =>
    rw [show addFullEdges g (t :: ts)
        = addFullEdges (add_edge g t.1 t.2.1 [("organization", t.2.2)]) ts from rfl]
    rw [ih, hasEdge_add_edge]
    simp only [List.mem_cons]
    constructor
    · rintro ((h | ⟨h1, h2⟩) | ⟨t0, ht0, h⟩)
      · exact Or.inl h
      · exact Or.inr ⟨t, Or.inl rfl, h1.symm, h2.symm⟩
      · exact Or.inr ⟨t0, Or.inr ht0, h⟩
    · rintro (h | ⟨t0, (rfl | ht0), h1, h2⟩)
      · exact Or.inl (Or.inl h)
      · exact Or.inl (Or.inr ⟨h1.symm, h2.symm⟩)
      · exact Or.inr ⟨t0, ht0, h1, h2⟩

theorem hasEdge_addNarrowFollowerEdges (members : String → List String) (g : DiGraph)
    (triples : List (String × String × String)) (x y : String) :
    hasEdge (addNarrowFollowerEdges members g triples) x y = true ↔
      hasEdge g x y = true ∨
        ∃ t ∈ triples, (members t.2.2).contains t.1 = true ∧ t.1 = x ∧ t.2.1 = y := by
  induction triples generalizing g with
  | nil => simp [addNarrowFollowerEdges]
  | cons t ts ih =>
    rw [show addNarrowFollowerEdges members g (t :: ts)
        = addNarrowFollowerEdges members
            (if (members t.2.2).contains t.1
              then add_edge g t.1 t.2.1 [("organization", t.2.2)] else g) ts
      from rfl]
    by_cases hg : (members t.2.2).contains t.1 = true
    · rw [if_pos hg, ih, hasEdge_add_edge]
      simp only [List.mem_cons]
      constructor
      · rintro ((h | ⟨h1, h2⟩) | ⟨t0, ht0, h⟩)
        · exact Or.inl h
        · exact Or.inr ⟨t, Or.inl rfl, hg, h1.symm, h2.symm⟩
        · exact Or.inr ⟨t0, Or.inr ht0, h⟩
      · rintro (h | ⟨t0, (rfl | ht0), hgate, h1, h2⟩)
        · exact Or.inl (Or.inl h)
        · exact Or.inl (Or.inr ⟨h1.symm, h2.symm⟩)
        · exact Or.inr ⟨t0, ht0, hgate, h1, h2⟩
    · rw [if_neg hg, ih]
      simp only [List.mem_cons]
      constructor
      · rintro (h | ⟨t0, ht0, h⟩)
        · exact Or.inl h
        · exact Or.inr ⟨t0, Or.inr ht0, h⟩
      · rintro (h | ⟨t0, (rfl | ht0), hgate, h1, h2⟩)
        · exact Or.inl h
        · exact absurd hgate hg
        · exact Or.inr ⟨t0, ht0, hgate, h1, h2⟩

theorem hasEdge_addNarrowFollowingEdges (members : String → List String) (g : DiGraph)
    (triples : List (String × String × String)) (x y : String) :
    hasEdge (addNarrowFollowingEdges members g triples) x y = true ↔
      hasEdge g x y = true ∨
        ∃ t ∈ triples, (members t.2.2).contains t.2.1 = true ∧ t.1 = x ∧ t.2.1 = y := by
  induction triples generalizing g with
  | nil => simp [addNarrowFollowingEdges]
  | cons t ts ih =>
    rw [show addNarrowFollowingEdges members g (t :: ts)
        = addNarrowFollowingEdges members
            (if (members t.2.2).contains t.2.1
              then add_edge g t.1 t.2.1 [("organization", t.2.2)] else g) ts
      from rfl]
    by_cases hg : (members t.2.2).contains t.2.1 = true
    · rw [if_pos hg, ih, hasEdge_add_edge]
      simp only [List.mem_cons]
      constructor
      · rintro ((h | ⟨h1, h2⟩) | ⟨t0, ht0, h⟩)
        · exact Or.inl h
        · exact Or.inr ⟨t, Or.inl rfl, hg, h1.symm, h2.symm⟩
        · exact Or.inr ⟨t0, Or.inr ht0, h⟩
      · rintro (h | ⟨t0, (rfl | ht0), hgate, h1, h2⟩)
        · exact Or.inl (Or.inl h)
        · exact Or.inl (Or.inr ⟨h1.symm, h2.symm⟩)
        · exact Or.inr ⟨t0, ht0, hgate, h1, h2⟩
    · rw [if_neg hg, ih]
      simp only [List.mem_cons]
      constructor
      · rintro (h | ⟨t0, ht0, h⟩)
        · exact Or.inl h
        · exact Or.inr ⟨t0, Or.inr ht0, h⟩
      · rintro (h | ⟨t0, (rfl | ht0), hgate, h1, h2⟩)
        · exact Or.inl h
        · exact absurd hgate hg
        · exact Or.inr ⟨t0, ht0, hgate, h1, h2⟩

theorem edges_initMemberGraph (orgs : List String) (members : String → List String) :
    (initMemberGraph orgs members).edges = [] := by
  unfold initMemberGraph
  exact foldl_inv (fun g : DiGraph => g.edges = [])
    (fun g org => (members org).foldl (fun g m => add_node g m [("organization", org)]) g)
    (fun g org hg =>
      foldl_inv (fun g : DiGraph => g.edges = [])
        (fun g m => add_node g m [("organization", org)])
        (fun g m hg2 => by
          show (add_node g m [("organization", org)]).edges = []
          rw [edges_add_node]
          exact hg2)
        (members org) g hg)
    orgs emptyGraph rfl

theorem hasEdge_initMemberGraph (orgs : List String) (members : String → List String)
    (x y : String) :
    hasEdge (initMemberGraph orgs members) x y = false := by
  unfold hasEdge
  rw [edges_initMemberGraph]
  rfl

/-! ### Attribute invariants -/

/-- The node-attribute invariant of the produced graphs: a node either has no
attributes (it was created implicitly by add_edge) or carries `organization`
and/or `node_type`. -/
def nodeAttrOk (c : Ctx) : Prop :=
  c = [] ∨ "organization" ∈ keys c ∨ "node_type" ∈ keys c

theorem edge_attr_key_add_edge (g : DiGraph) (u v : String) (a : Ctx) (req : String)
    (hreq : req ∈ a.map Prod.fst)
    (h : ∀ e ∈ g.edges, req ∈ keys e.2.2) :
    ∀ e ∈ (add_edge g u v a).edges, req ∈ keys e.2.2 := by
  intro e he
  rw [edges_add_edge] at he
  by_cases hc : g.edges.any (fun e => e.1 == u && e.2.1 == v) = true
  · rw [if_pos hc] at he
    obtain ⟨e0, he0, hmap⟩ := List.mem_map.mp he
    by_cases hm : (e0.1 == u && e0.2.1 == v) = true
    · rw [if_pos hm] at hmap
      subst hmap
      exact (mem_keys_tagEntity _ a req).mpr (Or.inr hreq)
    · rw [if_neg hm] at hmap
      subst hmap
      exact h e0 he0
  · rw [if_neg hc] at he
    rcases List.mem_append.mp he with hm | hm
    · exact h e hm
    · have he2 : e = (u, v, a) := by simpa using hm
      rw [he2]
      exact hreq

theorem node_attr_ok_addNodeIfAbsent (g : DiGraph) (n : String)
    (h : ∀ p ∈ g.nodes, nodeAttrOk p.2) :
    ∀ p ∈ (addNodeIfAbsent g n).nodes, nodeAttrOk p.2 := by
  intro p hp
  rw [nodes_addNodeIfAbsent] at hp
  by_cases hc : g.nodes.any (fun p => p.1 == n) = true
  · rw [if_pos hc] at hp
    exact h p hp
  · rw [if_neg hc] at hp
    rcases List.mem_append.mp hp with hm | hm
    · exact h p hm
    · have hp2 : p = (n, []) := by simpa using hm
      rw [hp2]
      exact Or.inl rfl

theorem node_attr_ok_add_edge (g : DiGraph) (u v : String) (a : Ctx)
    (h : ∀ p ∈ g.nodes, nodeAttrOk p.2) :
    ∀ p ∈ (add_edge g u v a).nodes, nodeAttrOk p.2 := by
  intro p hp
  rw [nodes_add_edge] at hp
  exact node_attr_ok_addNodeIfAbsent _ v
    (node_attr_ok_addNodeIfAbsent _ u h) p hp

theorem node_attr_ok_add_node (g : DiGraph) (n : String) (attrs : Ctx)
    (hattrs : "organization" ∈ keys attrs ∨ "node_type" ∈ keys attrs)
    (h : ∀ p ∈ g.nodes, nodeAttrOk p.2) :
    ∀ p ∈ (add_node g n attrs).nodes, nodeAttrOk p.2 := by
  intro p hp
  rw [nodes_add_node] at hp
  by_cases hc : g.nodes.any (fun p => p.1 == n) = true
  · rw [if_pos hc] at hp
    obtain ⟨q, hq, hmap⟩ := List.mem_map.mp hp
    by_cases hqn : q.1 = n
    · rw [if_pos (by simp [hqn])] at hmap
      subst hmap
      rcases hattrs with ho | ho
      · exact Or.inr (Or.inl ((mem_keys_tagEntity _ _ _).mpr (Or.inr ho)))
      · exact Or.inr (Or.inr ((mem_keys_tagEntity _ _ _).mpr (Or.inr ho)))
    · rw [if_neg (by simp [hqn])] at hmap
      subst hmap
      exact h q hq
  · rw [if_neg hc] at hp
    rcases List.mem_append.mp hp with hm | hm
    · exact h p hm
    · have hp2 : p = (n, attrs) := by simpa using hm
      rw [hp2]
      exact Or.inr hattrs

/-- The member-node property tracked for C10: the member is a node and its
attribute dict carries `organization`. -/
def memberNodeOk (g : DiGraph) (m : String) : Prop :=
  hasNode g m = true ∧ ∃ a, nodeAttrs g m = some a ∧ "organization" ∈ keys a

theorem add_node_org_establishes (g : DiGraph) (m org : String) :
    memberNodeOk (add_node g m [("organization", org)]) m := by
  obtain ⟨a, ha, hcase⟩ := nodeAttrs_add_node_self g m [("organization", org)]
  refine ⟨(hasNode_add_node g m _ m).mpr (Or.inr rfl), a, ha, ?_⟩
  rcases hcase with rfl | ⟨old, _, rfl⟩
  · simp [keys]
  · exact (mem_keys_tagEntity _ _ _).mpr (Or.inr (by simp))

theorem add_node_org_preserves (g : DiGraph) (n org m : String)
    (hq : memberNodeOk g m) :
    memberNodeOk (add_node g n [("organization", org)]) m := by
  by_cases hnm : m = n
  · subst hnm
    exact add_node_org_establishes g m org
  · obtain ⟨hn, a, ha, hk⟩ := hq
    exact ⟨(hasNode_add_node g n _ m).mpr (Or.inl hn), a,
      by rw [nodeAttrs_add_node_ne g n _ m hnm]; exact ha, hk⟩

theorem add_edge_preserves_memberNodeOk (g : DiGraph) (u v : String) (a : Ctx)
    (m : String) (hq : memberNodeOk g m) :
    memberNodeOk (add_edge g u v a) m := by
  obtain ⟨hn, b, hb, hk⟩ := hq
  exact ⟨(hasNode_add_edge g u v a m).mpr (Or.inl hn), b,
    by rw [nodeAttrs_add_edge_of_hasNode g u v a m hn]; exact hb, hk⟩

theorem foldl_estab {σ α : Type} (P : σ → Prop) (f : σ → α → σ) (x : α)
    (hf : ∀ s y, P s → P (f s y)) (hx : ∀ s, P (f s x)) :
    ∀ (l : List α) (s : σ), x ∈ l → P (l.foldl f s) := by
  intro l
  induction l with
  | nil => intro s hx0; cases hx0
  | cons y ys ih =>
    intro s hmem
    rcases List.mem_cons.mp hmem with rfl | hm
    · exact foldl_inv P f hf ys (f s x) (hx s)
    · exact ih (f s y) hm

theorem init_member_node (orgs : List String) (members : String → List String)
    (org m : String) (h1 : org ∈ orgs) (h2 : m ∈ members org) :
    memberNodeOk (initMemberGraph orgs members) m := by
  unfold initMemberGraph
  refine foldl_estab (fun g => memberNodeOk g m)
    (fun g org' => (members org').foldl
      (fun g m' => add_node g m' [("organization", org')]) g)
    org
    (fun g org' hg =>
      foldl_inv (fun g => memberNodeOk g m)
        (fun g m' => add_node g m' [("organization", org')])
        (fun g m' hg2 => add_node_org_preserves g m' org' m hg2)
        (members org') g hg)
    (fun g =>
      foldl_estab (fun g => memberNodeOk g m)
        (fun g m' => add_node g m' [("organization", org)])
        m
        (fun g m' hg2 => add_node_org_preserves g m' org m hg2)
        (fun g2 => add_node_org_establishes g2 m org)
        (members org) g h2)
    orgs emptyGraph h1

/-! ### Membership in the fetched triple lists -/

theorem mem_followerTriples (orgs : List String) (members followersOf : String → List String)
    (x y o : String) :
    (x, y, o) ∈ followerTriples orgs members followersOf ↔
      o ∈ orgs ∧ y ∈ members o ∧ x ∈ followersOf y := by
  unfold followerTriples
  simp only [List.mem_flatMap, List.mem_map, Prod.mk.injEq]
  constructor
  · rintro ⟨org, horg, m, hm, l, hl, rfl, rfl, rfl⟩
    exact ⟨horg, hm, hl⟩
  · rintro ⟨ho, hy, hx⟩
    exact ⟨o, ho, y, hy, x, hx, rfl, rfl, rfl⟩

theorem mem_followingTriples (orgs : List String) (members followingOf : String → List String)
    (x y o : String) :
    (x, y, o) ∈ followingTriples orgs members followingOf ↔
      o ∈ orgs ∧ x ∈ members o ∧ y ∈ followingOf x := by
  unfold followingTriples
  simp only [List.mem_flatMap, List.mem_map, Prod.mk.injEq]
  constructor
  · rintro ⟨org, horg, m, hm, l, hl, rfl, rfl, rfl⟩
    exact ⟨horg, hm, hl⟩
  · rintro ⟨ho, hx, hy⟩
    exact ⟨o, ho, x, hx, y, hy, rfl, rfl, rfl⟩

theorem mem_membershipTriples (orgs : List String) (members orgsOf : String → List String)
    (x y o : String) :
    (x, y, o) ∈ membershipTriples orgs members orgsOf ↔
      o ∈ orgs ∧ x ∈ members o ∧ y ∈ orgsOf x := by
  unfold membershipTriples
  simp only [List.mem_flatMap, List.mem_map, Prod.mk.injEq]
  constructor
  · rintro ⟨org, horg, m, hm, l, hl, rfl, rfl, rfl⟩
    exact ⟨horg, hm, hl⟩
  · rintro ⟨ho, hx, hy⟩
    exact ⟨o, ho, x, hx, y, hy, rfl, rfl, rfl⟩

/-! ### Edge membership of the two follower graphs -/

theorem full_follower_edge_iff (orgs : List String)
    (members followersOf followingOf : String → List String) (u v : String) :
    hasEdge (generate_follower_network orgs members followersOf followingOf).1 u v = true ↔
      ∃ org ∈ orgs, ∃ m ∈ members org,
        (v = m ∧ u ∈ followersOf m) ∨ (u = m ∧ v ∈ followingOf m) := by
  simp only [generate_follower_network]
  rw [hasEdge_addFullEdges, hasEdge_addFullEdges, hasEdge_initMemberGraph]
  simp only [Bool.false_eq_true, false_or]
  constructor
  · rintro (⟨t, ht, h1, h2⟩ | ⟨t, ht, h1, h2⟩)
    · obtain ⟨ho, hm, hf⟩ :=
        (mem_followerTriples orgs members followersOf t.1 t.2.1 t.2.2).mp ht
      exact ⟨t.2.2, ho, t.2.1, hm, Or.inl ⟨h2.symm, h1 ▸ hf⟩⟩
    · obtain ⟨ho, hm, hf⟩ :=
        (mem_followingTriples orgs members followingOf t.1 t.2.1 t.2.2).mp ht
      exact ⟨t.2.2, ho, t.1, hm, Or.inr ⟨h1.symm, h2 ▸ hf⟩⟩
  · rintro ⟨org, ho, m, hm, (⟨rfl, hu⟩ | ⟨rfl, hv⟩)⟩
    · exact Or.inl ⟨(u, v, org),
        (mem_followerTriples orgs members followersOf u v org).mpr ⟨ho, hm, hu⟩, rfl, rfl⟩
    · exact Or.inr ⟨(u, v, org),
        (mem_followingTriples orgs members followingOf u v org).mpr ⟨ho, hm, hv⟩, rfl, rfl⟩

theorem narrow_follower_edge_occ_iff (orgs : List String)
    (members followersOf followingOf : String → List String) (u v : String) :
    hasEdge (generate_follower_network orgs members followersOf followingOf).2 u v = true ↔
      ∃ org ∈ orgs, ∃ m ∈ members org,
        (v = m ∧ u ∈ followersOf m ∧ u ∈ members org) ∨
        (u = m ∧ v ∈ followingOf m ∧ v ∈ members org) := by
  simp only [generate_follower_network]
  rw [hasEdge_addNarrowFollowingEdges, hasEdge_addNarrowFollowerEdges,
    hasEdge_initMemberGraph]
  simp only [Bool.false_eq_true, false_or]
  constructor
  · rintro (⟨t, ht, hgate, h1, h2⟩ | ⟨t, ht, hgate, h1, h2⟩)
    · obtain ⟨ho, hm, hf⟩ :=
        (mem_followerTriples orgs members followersOf t.1 t.2.1 t.2.2).mp ht
      have hg2 : t.1 ∈ members t.2.2 := by simpa using hgate
      exact ⟨t.2.2, ho, t.2.1, hm, Or.inl ⟨h2.symm, h1 ▸ hf, h1 ▸ hg2⟩⟩
    · obtain ⟨ho, hm, hf⟩ :=
        (mem_followingTriples orgs members followingOf t.1 t.2.1 t.2.2).mp ht
      have hg2 : t.2.1 ∈ members t.2.2 := by simpa using hgate
      exact ⟨t.2.2, ho, t.1, hm, Or.inr ⟨h1.symm, h2 ▸ hf, h2 ▸ hg2⟩⟩
  · rintro ⟨org, ho, m, hm, (⟨rfl, hu, hgu⟩ | ⟨rfl, hv, hgv⟩)⟩
    · exact Or.inl ⟨(u, v, org),
        (mem_followerTriples orgs members followersOf u v org).mpr ⟨ho, hm, hu⟩,
        by simpa using hgu, rfl, rfl⟩
    · exact Or.inr ⟨(u, v, org),
        (mem_followingTriples orgs members followingOf u v org).mpr ⟨ho, hm, hv⟩,
        by simpa using hgv, rfl, rfl⟩

/-! ## Claim C1 -/

/-- C1: for every paginated fetch (a URL whose second-to-last path segment is
not `users`), call_api requests pages with a counter starting at 1, stops at
the first empty page N, and returns exactly the concatenation of the (tagged)
pages 1..N-1 in page order. -/
theorem call_api_paginated_pages (url : String) (server : Nat → List Entity)
    (userObj : Entity) (ctx : Ctx) (fuel N : Nat) (s : String)
    (hseg : secondToLast url = some s) (hs : s ≠ "users")
    (hN : server N = []) (hpos : 1 ≤ N)
    (hne : ∀ i, i < N → 1 ≤ i → server i ≠ [])
    (hfuel : N ≤ fuel) :
    call_api url server userObj ctx fuel
      = some (((List.range' 1 (N - 1)).map (fun i => tagList (server i) ctx)).flatten) := by
  unfold call_api
  rw [hseg]
  show (if s = "users" then some [tagEntity userObj ctx]
    else callApiLoop server ctx 1 fuel) = _
  rw [if_neg hs]
  exact callApiLoop_eq server ctx N hN fuel 1 hpos (by omega)
    (fun i h1 h2 => hne i h2 h1)

/-- A three-page demo server: pages 1 and 2 hold one repository each, page 3
is empty. -/
def demoPages : Nat → List Entity := fun p =>
  if p = 1 then [[("full_name", "acme/a")]]
  else if p = 2 then [[("full_name", "acme/b")]]
  else []

theorem call_api_paginated_pages_witness :
    secondToLast "api.github.com/orgs/acme/repos" = some "acme"
    ∧ ("acme" : String) ≠ "users"
    ∧ demoPages 3 = []
    ∧ (∀ i, i < 3 → 1 ≤ i → demoPages i ≠ [])
    ∧ call_api "api.github.com/orgs/acme/repos" demoPages [] [("organization", "acme")] 3
        = some (((List.range' 1 (3 - 1)).map
            (fun i => tagList (demoPages i) [("organization", "acme")])).flatten) :=
  ⟨by decide, by decide, by decide, by decide,
   call_api_paginated_pages "api.github.com/orgs/acme/repos" demoPages []
     [("organization", "acme")] 3 3 "acme" (by decide) (by decide) (by decide)
     (by decide) (by decide) (by decide)⟩

/-! ## Claim C2 -/

/-- C2 counterexample: a batch whose first completed task succeeded and whose
second raised a non-ContentTypeError exception (e.g. a network error) makes
load_json raise instead of returning the succeeding task's entities: the
failure IS fatal and the aggregate is lost. -/
theorem load_json_network_error_fatal :
    load_json [TaskOutcome.ok [[("login", "alice")]], TaskOutcome.networkError]
      = Except.error "unhandled exception" := by rfl

/-- C2 amended: if no task of the batch raised an uncaught exception (only
successes and ContentTypeError decode failures), load_json returns the
concatenation, in done-set iteration order, of the items of every succeeding
task, each decode-failing task contributing nothing; an uncaught exception
(e.g. a network error), by contrast, aborts the aggregation. -/
theorem load_json_isolates (done : List TaskOutcome)
    (h : TaskOutcome.networkError ∉ done) :
    load_json done = Except.ok ((done.map okItems).flatten) := by
  have := loadJson_go done h []
  simpa [load_json] using this

theorem load_json_isolates_witness :
    TaskOutcome.networkError ∉
      [TaskOutcome.ok [[("login", "alice")]], TaskOutcome.contentTypeError,
        TaskOutcome.ok [[("login", "bob")]]]
    ∧ load_json
        [TaskOutcome.ok [[("login", "alice")]], TaskOutcome.contentTypeError,
          TaskOutcome.ok [[("login", "bob")]]]
      = Except.ok
          (([TaskOutcome.ok [[("login", "alice")]], TaskOutcome.contentTypeError,
              TaskOutcome.ok [[("login", "bob")]]].map okItems).flatten) :=
  ⟨by decide,
   load_json_isolates
     [TaskOutcome.ok [[("login", "alice")]], TaskOutcome.contentTypeError,
       TaskOutcome.ok [[("login", "bob")]]]
     (by decide)⟩

/-! ## Claim C3 -/

def cexOrgs : List String := ["orgA", "orgB"]

def cexMembers : String → List String := fun s =>
  if s = "orgA" then ["alice"] else if s = "orgB" then ["bob"] else []

def cexFollowers : String → List String := fun s =>
  if s = "alice" then ["bob"] else []

def cexFollowing : String → List String := fun _ => []

/-- C3 counterexample: with members {orgA: [alice], orgB: [bob]} and bob
following alice, the full graph has edge (bob, alice) and bob lies in the
union of all member lists, yet the narrow graph omits the edge — the code
tests membership in the subject's own organization, not in the union. -/
theorem narrow_filter_union_counterexample :
    ¬ (hasEdge (generate_follower_network cexOrgs cexMembers cexFollowers cexFollowing).2
          "bob" "alice" = true
        ↔ (hasEdge (generate_follower_network cexOrgs cexMembers cexFollowers cexFollowing).1
              "bob" "alice" = true
            ∧ "bob" ∈ cexOrgs.flatMap cexMembers)) := by decide

/-- C3 amended: the narrow graph contains edge (u,v) iff some follow relation
occurrence produces (u,v) with its remote (non-subject) endpoint a member of
the subject's own organization — the organization tagged on that request —
rather than of the union of all member lists; narrow edges always also lie in
the full graph. -/
theorem narrow_follower_edge_iff (orgs : List String)
    (members followersOf followingOf : String → List String) (u v : String) :
    (hasEdge (generate_follower_network orgs members followersOf followingOf).2 u v = true →
      hasEdge (generate_follower_network orgs members followersOf followingOf).1 u v = true)
    ∧ (hasEdge (generate_follower_network orgs members followersOf followingOf).2 u v = true ↔
        ∃ org ∈ orgs, ∃ m ∈ members org,
          (v = m ∧ u ∈ followersOf m ∧ u ∈ members org) ∨
          (u = m ∧ v ∈ followingOf m ∧ v ∈ members org)) := by
  constructor
  · intro h
    obtain ⟨org, ho, m, hm, hcase⟩ :=
      (narrow_follower_edge_occ_iff orgs members followersOf followingOf u v).mp h
    apply (full_follower_edge_iff orgs members followersOf followingOf u v).mpr
    rcases hcase with ⟨h1, h2, _⟩ | ⟨h1, h2, _⟩
    · exact ⟨org, ho, m, hm, Or.inl ⟨h1, h2⟩⟩
    · exact ⟨org, ho, m, hm, Or.inr ⟨h1, h2⟩⟩
  · exact narrow_follower_edge_occ_iff orgs members followersOf followingOf u v

theorem narrow_follower_edge_iff_witness :
    (hasEdge (generate_follower_network cexOrgs cexMembers cexFollowers cexFollowing).2
        "bob" "alice" = true →
      hasEdge (generate_follower_network cexOrgs cexMembers cexFollowers cexFollowing).1
        "bob" "alice" = true)
    ∧ (hasEdge (generate_follower_network cexOrgs cexMembers cexFollowers cexFollowing).2
          "bob" "alice" = true ↔
        ∃ org ∈ cexOrgs, ∃ m ∈ cexMembers org,
          ("alice" = m ∧ "bob" ∈ cexFollowers m ∧ "bob" ∈ cexMembers org) ∨
          ("bob" = m ∧ "alice" ∈ cexFollowing m ∧ "alice" ∈ cexMembers org)) :=
  narrow_follower_edge_iff cexOrgs cexMembers cexFollowers cexFollowing "bob" "alice"

/-! ## Claim C4 -/

/-- C4 counterexample: tagging an entity that already has an `organization`
field overwrites its value — `item[key] = value` replaces the existing value;
here the original value "alpha" becomes the context value "beta". -/
theorem tagging_overwrite_counterexample :
    dictGet (tagEntity [("organization", "alpha")] [("organization", "beta")])
        "organization" = some "beta"
    ∧ dictGet [("organization", "alpha")] "organization" = some "alpha"
    ∧ some "beta" ≠ some "alpha" := by decide

/-- C4 amended: tagging sets every context field to the context value,
overwriting an existing field of the same name; a field not named in the
context keeps its value, no field is ever removed (the key set only grows),
and every key of the result comes from the entity or the context. -/
theorem tagging_adds_and_overwrites (e : Entity) (ctx : Ctx) (k : String) :
    (k ∉ ctx.map Prod.fst → dictGet (tagEntity e ctx) k = dictGet e k)
    ∧ (k ∈ keys e → k ∈ keys (tagEntity e ctx))
    ∧ (k ∈ keys (tagEntity e ctx) → k ∈ keys e ∨ k ∈ ctx.map Prod.fst)
    ∧ ((ctx.map Prod.fst).Nodup → ∀ v, (k, v) ∈ ctx →
        dictGet (tagEntity e ctx) k = some v) := by
  refine ⟨dictGet_tagEntity_not_mem e ctx k, ?_, ?_, ?_⟩
  · intro h
    exact (mem_keys_tagEntity e ctx k).mpr (Or.inl h)
  · intro h
    exact (mem_keys_tagEntity e ctx k).mp h
  · intro hnd v hm
    exact dictGet_tagEntity_mem e ctx k v hnd hm

theorem tagging_adds_and_overwrites_witness :
    dictGet (tagEntity [("login", "alice")] [("organization", "orgA")]) "login"
        = dictGet [("login", "alice")] "login"
    ∧ "login" ∈ keys (tagEntity [("login", "alice")] [("organization", "orgA")])
    ∧ dictGet (tagEntity [("login", "alice")] [("organization", "orgA")]) "organization"
        = some "orgA" :=
  ⟨(tagging_adds_and_overwrites [("login", "alice")] [("organization", "orgA")] "login").1
      (by decide),
   (tagging_adds_and_overwrites [("login", "alice")] [("organization", "orgA")] "login").2.1
      (by decide),
   (tagging_adds_and_overwrites [("login", "alice")] [("organization", "orgA")]
      "organization").2.2.2 (by decide) "orgA" (by decide)⟩

/-! ## Claim C5 -/

/-- C5: tagging is idempotent — applying the tagging step twice with the same
context (a kwargs mapping, hence with distinct keys) equals applying it
once. -/
theorem tagging_idempotent (E : List Entity) (C : Ctx)
    (h : (C.map Prod.fst).Nodup) :
    tagList (tagList E C) C = tagList E C := by
  unfold tagList
  rw [List.map_map]
  apply List.map_congr_left
  intro e _
  exact tagEntity_idem e C h

theorem tagging_idempotent_witness :
    (([("organization", "orgA"), ("repository", "r")] : Ctx).map Prod.fst).Nodup
    ∧ tagList
        (tagList [[("login", "alice"), ("organization", "x")]]
          [("organization", "orgA"), ("repository", "r")])
        [("organization", "orgA"), ("repository", "r")]
      = tagList [[("login", "alice"), ("organization", "x")]]
          [("organization", "orgA"), ("repository", "r")] :=
  ⟨by decide,
   tagging_idempotent [[("login", "alice"), ("organization", "x")]]
     [("organization", "orgA"), ("repository", "r")] (by decide)⟩

/-! ## Claim C6 -/

/-- C6: generate_csv produces one row per entity in order; each row holds
exactly the declared columns in order, a missing field renders as the empty
string, a field not in the column list never appears, and the projection is
total (never errors). -/
theorem generate_csv_projection (json_list : List Entity) (columns_list : List String) :
    (generate_csv json_list columns_list).length = json_list.length
    ∧ (∀ i : Nat, (generate_csv json_list columns_list)[i]?
        = (json_list[i]?).map (fun item => projectRow columns_list item))
    ∧ (∀ item ∈ json_list, (projectRow columns_list item).length = columns_list.length)
    ∧ (∀ item ∈ json_list, ∀ j : Nat, (projectRow columns_list item)[j]?
        = (columns_list[j]?).map (fun c => (dictGet item c).getD ""))
    ∧ (∀ item ∈ json_list, ∀ x ∈ projectRow columns_list item,
        x = "" ∨ ∃ c ∈ columns_list, dictGet item c = some x) := by
  refine ⟨List.length_map _ _, fun i => List.getElem?_map _ _ _,
    fun item _ => List.length_map _ _,
    fun item _ j => List.getElem?_map _ _ _, ?_⟩
  intro item _ x hx
  obtain ⟨c, hc, hcx⟩ := List.mem_map.mp hx
  cases hdg : dictGet item c with
  | none =>
    left
    rw [hdg] at hcx
    simpa using hcx.symm
  | some v =>
    right
    refine ⟨c, hc, ?_⟩
    rw [hdg] at hcx
    simp only [Option.getD_some] at hcx
    rw [hdg, hcx]

theorem generate_csv_projection_witness :
    ([("name", "r"), ("extra", "z")] : Entity) ∈ [[("name", "r"), ("extra", "z")]]
    ∧ (projectRow ["organization", "name"] [("name", "r"), ("extra", "z")])[1]?
        = ((["organization", "name"] : List String)[1]?).map
            (fun c => (dictGet [("name", "r"), ("extra", "z")] c).getD "") :=
  ⟨by decide,
   (generate_csv_projection [[("name", "r"), ("extra", "z")]]
      ["organization", "name"]).2.2.2.1 _ (by decide) 1⟩

/-! ## Claim C7 -/

/-- C7: in every run, get_members executes at most once, and it executes iff
--all is selected or at least one selected operation lies in the
require_members dependency set; with no such operation selected, member
loading is skipped. -/
theorem members_loaded_once (a : Args) :
    (mainTrace a).count Action.loadMembers ≤ 1
    ∧ ((mainTrace a).count Action.loadMembers = 1 ↔
        (a.all = true ∨ ∃ op ∈ selectedOps a, op ∈ require_members)) := by
  obtain ⟨f1, f2, f3, f4, f5, f6, f7, f8⟩ := a
  revert f1 f2 f3 f4 f5 f6 f7 f8
  decide

theorem members_loaded_once_witness :
    (mainTrace ⟨false, false, false, true, false, false, false, false⟩).count
        Action.loadMembers ≤ 1
    ∧ ((mainTrace ⟨false, false, false, true, false, false, false, false⟩).count
          Action.loadMembers = 1 ↔
        ((⟨false, false, false, true, false, false, false, false⟩ : Args).all = true ∨
          ∃ op ∈ selectedOps ⟨false, false, false, true, false, false, false, false⟩,
            op ∈ require_members)) :=
  members_loaded_once ⟨false, false, false, true, false, false, false, false⟩

/-! ## Claim C8 -/

/-- All edges of the graph carry attribute `req`. -/
def edgesHaveKey (g : DiGraph) (req : String) : Prop :=
  ∀ e ∈ g.edges, req ∈ keys e.2.2

/-- All attributed nodes of the graph carry `organization` and/or `node_type`. -/
def nodesAttrOk (g : DiGraph) : Prop :=
  ∀ p ∈ g.nodes, nodeAttrOk p.2

theorem edgesHaveKey_empty (req : String) : edgesHaveKey emptyGraph req := by
  intro e he
  cases he

theorem nodesAttrOk_empty : nodesAttrOk emptyGraph := by
  intro p hp
  cases hp

theorem edgesHaveKey_initMemberGraph (orgs : List String)
    (members : String → List String) :
    edgesHaveKey (initMemberGraph orgs members) "organization" := by
  intro e he
  rw [edges_initMemberGraph] at he
  cases he

theorem nodesAttrOk_initMemberGraph (orgs : List String)
    (members : String → List String) :
    nodesAttrOk (initMemberGraph orgs members) := by
  unfold initMemberGraph
  refine foldl_inv nodesAttrOk _ ?_ orgs emptyGraph nodesAttrOk_empty
  intro s org hs
  refine foldl_inv nodesAttrOk _ ?_ (members org) s hs
  intro s2 m hs2
  show nodesAttrOk (add_node s2 m [("organization", org)])
  exact node_attr_ok_add_node s2 m _ (Or.inl (by simp [keys])) hs2

theorem addFullEdges_invariants (g : DiGraph) (triples : List (String × String × String))
    (he : edgesHaveKey g "organization") (hn : nodesAttrOk g) :
    edgesHaveKey (addFullEdges g triples) "organization"
    ∧ nodesAttrOk (addFullEdges g triples) := by
  unfold addFullEdges
  refine foldl_inv (fun g => edgesHaveKey g "organization" ∧ nodesAttrOk g)
    _ ?_ triples g ⟨he, hn⟩
  intro s t hs
  show edgesHaveKey (add_edge s t.1 t.2.1 [("organization", t.2.2)]) "organization"
    ∧ nodesAttrOk (add_edge s t.1 t.2.1 [("organization", t.2.2)])
  exact ⟨edge_attr_key_add_edge s t.1 t.2.1 _ _ (by simp) hs.1,
    node_attr_ok_add_edge s t.1 t.2.1 _ hs.2⟩

theorem addNarrowFollowerEdges_invariants (members : String → List String)
    (g : DiGraph) (triples : List (String × String × String))
    (he : edgesHaveKey g "organization") (hn : nodesAttrOk g) :
    edgesHaveKey (addNarrowFollowerEdges members g triples) "organization"
    ∧ nodesAttrOk (addNarrowFollowerEdges members g triples) := by
  unfold addNarrowFollowerEdges
  refine foldl_inv (fun g => edgesHaveKey g "organization" ∧ nodesAttrOk g)
    _ ?_ triples g ⟨he, hn⟩
  intro s t hs
  show edgesHaveKey (if (members t.2.2).contains t.1
      then add_edge s t.1 t.2.1 [("organization", t.2.2)] else s) "organization"
    ∧ nodesAttrOk (if (members t.2.2).contains t.1
      then add_edge s t.1 t.2.1 [("organization", t.2.2)] else s)
  split_ifs
  · exact ⟨edge_attr_key_add_edge s t.1 t.2.1 _ _ (by simp) hs.1,
      node_attr_ok_add_edge s t.1 t.2.1 _ hs.2⟩
  · exact hs

theorem addNarrowFollowingEdges_invariants (members : String → List String)
    (g : DiGraph) (triples : List (String × String × String))
    (he : edgesHaveKey g "organization") (hn : nodesAttrOk g) :
    edgesHaveKey (addNarrowFollowingEdges members g triples) "organization"
    ∧ nodesAttrOk (addNarrowFollowingEdges members g triples) := by
  unfold addNarrowFollowingEdges
  refine foldl_inv (fun g => edgesHaveKey g "organization" ∧ nodesAttrOk g)
    _ ?_ triples g ⟨he, hn⟩
  intro s t hs
  show edgesHaveKey (if (members t.2.2).contains t.2.1
      then add_edge s t.1 t.2.1 [("organization", t.2.2)] else s) "organization"
    ∧ nodesAttrOk (if (members t.2.2).contains t.2.1
      then add_edge s t.1 t.2.1 [("organization", t.2.2)] else s)
  split_ifs
  · exact ⟨edge_attr_key_add_edge s t.1 t.2.1 _ _ (by simp) hs.1,
      node_attr_ok_add_edge s t.1 t.2.1 _ hs.2⟩
  · exact hs

def cex8Members : String → List String := fun s =>
  if s = "orgA" then ["alice"] else []

def cex8OrgsOf : String → List String := fun s =>
  if s = "alice" then ["orgX"] else []

/-- C8 counterexample: the membership network's edge carries only `node_type`
(the `node_type="organization"` keyword of `add_edge` lands on the edge's
attribute dict), so a produced graph has an edge without the `organization`
attribute. -/
theorem membership_edge_lacks_organization :
    edgeAttrs (generate_memberships_network ["orgA"] cex8Members cex8OrgsOf)
        "alice" "orgX" = some [("node_type", "organization")]
    ∧ "organization" ∉ keys [("node_type", "organization")]
    ∧ hasEdge (generate_memberships_network ["orgA"] cex8Members cex8OrgsOf)
        "alice" "orgX" = true := by decide

/-- C8 amended: edges of the contributor network and of the full and narrow
follower networks carry `organization`; edges of the membership network
instead carry `node_type`; in all four graphs a node with a non-empty
attribute dict carries `organization` and/or `node_type`. -/
theorem graph_attribute_invariants (orgs : List String)
    (members followersOf followingOf orgsOf : String → List String)
    (repoNames : List String) (contribsOf : String → String → List String) :
    edgesHaveKey (contributor_graph (contributorTriples orgs repoNames contribsOf))
      "organization"
    ∧ edgesHaveKey (generate_follower_network orgs members followersOf followingOf).1
      "organization"
    ∧ edgesHaveKey (generate_follower_network orgs members followersOf followingOf).2
      "organization"
    ∧ edgesHaveKey (generate_memberships_network orgs members orgsOf) "node_type"
    ∧ nodesAttrOk (contributor_graph (contributorTriples orgs repoNames contribsOf))
    ∧ nodesAttrOk (generate_follower_network orgs members followersOf followingOf).1
    ∧ nodesAttrOk (generate_follower_network orgs members followersOf followingOf).2
    ∧ nodesAttrOk (generate_memberships_network orgs members orgsOf) := by
  have hcontrib : edgesHaveKey (contributor_graph (contributorTriples orgs repoNames contribsOf)) "organization"
      ∧ nodesAttrOk (contributor_graph (contributorTriples orgs repoNames contribsOf)) := by
    unfold contributor_graph
    refine foldl_inv (fun g => edgesHaveKey g "organization" ∧ nodesAttrOk g)
      _ ?_ _ emptyGraph ⟨edgesHaveKey_empty _, nodesAttrOk_empty⟩
    intro s t hs
    show edgesHaveKey (add_edge (add_node s t.2.1 [("organization", t.2.2)])
        t.1 t.2.1 [("organization", t.2.2)]) "organization"
      ∧ nodesAttrOk (add_edge (add_node s t.2.1 [("organization", t.2.2)])
        t.1 t.2.1 [("organization", t.2.2)])
    constructor
    · apply edge_attr_key_add_edge _ _ _ _ _ (by simp)
      intro e he
      rw [edges_add_node] at he
      exact hs.1 e he
    · exact node_attr_ok_add_edge _ _ _ _
        (node_attr_ok_add_node s _ _ (Or.inl (by simp [keys])) hs.2)
  have hmemship : edgesHaveKey (generate_memberships_network orgs members orgsOf) "node_type"
      ∧ nodesAttrOk (generate_memberships_network orgs members orgsOf) := by
    unfold generate_memberships_network
    refine foldl_inv (fun g => edgesHaveKey g "node_type" ∧ nodesAttrOk g)
      _ ?_ _ emptyGraph ⟨edgesHaveKey_empty _, nodesAttrOk_empty⟩
    intro s t hs
    show edgesHaveKey (add_edge (add_node s t.1 [("node_type", "user")])
        t.1 t.2.1 [("node_type", "organization")]) "node_type"
      ∧ nodesAttrOk (add_edge (add_node s t.1 [("node_type", "user")])
        t.1 t.2.1 [("node_type", "organization")])
    constructor
    · apply edge_attr_key_add_edge _ _ _ _ _ (by simp)
      intro e he
      rw [edges_add_node] at he
      exact hs.1 e he
    · exact node_attr_ok_add_edge _ _ _ _
        (node_attr_ok_add_node s _ _ (Or.inr (by simp [keys])) hs.2)
  have hfull : edgesHaveKey (generate_follower_network orgs members followersOf followingOf).1 "organization"
      ∧ nodesAttrOk (generate_follower_network orgs members followersOf followingOf).1 := by
    simp only [generate_follower_network]
    have h1 := addFullEdges_invariants (initMemberGraph orgs members)
      (followerTriples orgs members followersOf)
      (edgesHaveKey_initMemberGraph orgs members) (nodesAttrOk_initMemberGraph orgs members)
    exact addFullEdges_invariants _ _ h1.1 h1.2
  have hnarrow : edgesHaveKey (generate_follower_network orgs members followersOf followingOf).2 "organization"
      ∧ nodesAttrOk (generate_follower_network orgs members followersOf followingOf).2 := by
    simp only [generate_follower_network]
    have h1 := addNarrowFollowerEdges_invariants members (initMemberGraph orgs members)
      (followerTriples orgs members followersOf)
      (edgesHaveKey_initMemberGraph orgs members) (nodesAttrOk_initMemberGraph orgs members)
    exact addNarrowFollowingEdges_invariants members _ _ h1.1 h1.2
  exact ⟨hcontrib.1, hfull.1, hnarrow.1, hmemship.1, hcontrib.2, hfull.2,
    hnarrow.2, hmemship.2⟩

theorem graph_attribute_invariants_witness :
    (("alice", "orgX", [("node_type", "organization")]) :
        String × String × Ctx) ∈
      (generate_memberships_network ["orgA"] cex8Members cex8OrgsOf).edges
    ∧ "node_type" ∈ keys [("node_type", "organization")] :=
  ⟨by decide,
   (graph_attribute_invariants ["orgA"] cex8Members (fun _ => []) (fun _ => [])
      cex8OrgsOf [] (fun _ _ => [])).2.2.2.1
     ("alice", "orgX", [("node_type", "organization")]) (by decide)⟩

/-! ## Claim C9 -/

/-- C9: the contributors operation issues exactly |orgs| x |repos| requests —
the request list is the full product of the organization list with the pooled
repository list, every repository paired with every organization — and each
contributor entity fetched for pair (org, repo) is tagged with that pairing
organization (and repository). -/
theorem contributors_cross_product (orgs repoNames : List String)
    (contribsOf : String → String → List Entity) :
    (contribRequests orgs repoNames).length = orgs.length * repoNames.length
    ∧ contribRequests orgs repoNames
        = (orgs.flatMap (fun org => repoNames.map (fun rn => (org, rn)))).map
            (fun p =>
              ("https://api.github.com/repos/" ++ p.1 ++ "/" ++ p.2 ++ "/contributors",
               [("organization", p.1), ("repository", p.2)]))
    ∧ (∀ org ∈ orgs, ∀ rn ∈ repoNames, ∀ e ∈ contribsOf org rn,
        dictGet (tagEntity e [("organization", org), ("repository", rn)])
            "organization" = some org
        ∧ dictGet (tagEntity e [("organization", org), ("repository", rn)])
            "repository" = some rn) := by
  refine ⟨?_, ?_, ?_⟩
  · induction orgs with
    | nil => simp [contribRequests]
    | cons o os ih =>
      unfold contribRequests at ih ⊢
      rw [List.flatMap_cons, List.length_append, List.length_map, ih]
      simp only [List.length_cons]
      ring
  · unfold contribRequests
    rw [List.map_flatMap]
    simp only [List.map_map]
    rfl
  · intro org _ rn _ e _
    have h1 : tagEntity e [("organization", org), ("repository", rn)]
        = dictSet (dictSet e "organization" org) "repository" rn := rfl
    constructor
    · rw [h1, dictGet_dictSet_ne _ _ _ _ (by decide), dictGet_dictSet_self]
    · rw [h1, dictGet_dictSet_self]

def cexContribs : String → String → List Entity := fun _ _ => [[("login", "kim")]]

theorem contributors_cross_product_witness :
    (contribRequests ["orgA", "orgB"] ["r1"]).length
        = (["orgA", "orgB"] : List String).length * (["r1"] : List String).length
    ∧ dictGet (tagEntity [("login", "kim")] [("organization", "orgA"), ("repository", "r1")])
        "organization" = some "orgA" :=
  ⟨(contributors_cross_product ["orgA", "orgB"] ["r1"] cexContribs).1,
   ((contributors_cross_product ["orgA", "orgB"] ["r1"] cexContribs).2.2 "orgA"
      (by decide) "r1" (by decide) [("login", "kim")] (by decide)).1⟩

/-! ## Claim C10 -/

theorem addFullEdges_preserves_mno (g : DiGraph)
    (triples : List (String × String × String)) (m : String)
    (h : memberNodeOk g m) : memberNodeOk (addFullEdges g triples) m := by
  unfold addFullEdges
  refine foldl_inv (fun g => memberNodeOk g m) _ ?_ triples g h
  intro s t hs
  exact add_edge_preserves_memberNodeOk s t.1 t.2.1 _ m hs

theorem addNarrowFollowerEdges_preserves_mno (members : String → List String)
    (g : DiGraph) (triples : List (String × String × String)) (m : String)
    (h : memberNodeOk g m) : memberNodeOk (addNarrowFollowerEdges members g triples) m := by
  unfold addNarrowFollowerEdges
  refine foldl_inv (fun g => memberNodeOk g m) _ ?_ triples g h
  intro s t hs
  show memberNodeOk (if (members t.2.2).contains t.1
    then add_edge s t.1 t.2.1 [("organization", t.2.2)] else s) m
  split_ifs
  · exact add_edge_preserves_memberNodeOk s t.1 t.2.1 _ m hs
  · exact hs

theorem addNarrowFollowingEdges_preserves_mno (members : String → List String)
    (g : DiGraph) (triples : List (String × String × String)) (m : String)
    (h : memberNodeOk g m) : memberNodeOk (addNarrowFollowingEdges members g triples) m := by
  unfold addNarrowFollowingEdges
  refine foldl_inv (fun g => memberNodeOk g m) _ ?_ triples g h
  intro s t hs
  show memberNodeOk (if (members t.2.2).contains t.2.1
    then add_edge s t.1 t.2.1 [("organization", t.2.2)] else s) m
  split_ifs
  · exact add_edge_preserves_memberNodeOk s t.1 t.2.1 _ m hs
  · exact hs

/-- C10: every member of every scraped organization is a node of both the
full and the narrow follower graph, carrying an `organization` attribute,
regardless of which follow edges are added — so the narrow graph's node set
always includes the entire member set. -/
theorem follower_network_contains_members (orgs : List String)
    (members followersOf followingOf : String → List String) (org m : String)
    (h1 : org ∈ orgs) (h2 : m ∈ members org) :
    hasNode (generate_follower_network orgs members followersOf followingOf).1 m = true
    ∧ hasNode (generate_follower_network orgs members followersOf followingOf).2 m = true
    ∧ (∃ a, nodeAttrs (generate_follower_network orgs members followersOf followingOf).1 m
          = some a ∧ "organization" ∈ keys a)
    ∧ (∃ a, nodeAttrs (generate_follower_network orgs members followersOf followingOf).2 m
          = some a ∧ "organization" ∈ keys a) := by
  have hinit := init_member_node orgs members org m h1 h2
  have hfull : memberNodeOk
      (generate_follower_network orgs members followersOf followingOf).1 m := by
    simp only [generate_follower_network]
    exact addFullEdges_preserves_mno _ _ m (addFullEdges_preserves_mno _ _ m hinit)
  have hnarrow : memberNodeOk
      (generate_follower_network orgs members followersOf followingOf).2 m := by
    simp only [generate_follower_network]
    exact addNarrowFollowingEdges_preserves_mno members _ _ m
      (addNarrowFollowerEdges_preserves_mno members _ _ m hinit)
  exact ⟨hfull.1, hnarrow.1, hfull.2, hnarrow.2⟩

theorem follower_network_contains_members_witness :
    hasNode (generate_follower_network cexOrgs cexMembers cexFollowers cexFollowing).1
        "alice" = true
    ∧ hasNode (generate_follower_network cexOrgs cexMembers cexFollowers cexFollowing).2
        "alice" = true
    ∧ (∃ a, nodeAttrs (generate_follower_network cexOrgs cexMembers cexFollowers cexFollowing).1
          "alice" = some a ∧ "organization" ∈ keys a)
    ∧ (∃ a, nodeAttrs (generate_follower_network cexOrgs cexMembers cexFollowers cexFollowing).2
          "alice" = some a ∧ "organization" ∈ keys a) :=
  follower_network_contains_members cexOrgs cexMembers cexFollowers cexFollowing
    "orgA" "alice" (by decide) (by decide)

end GHS
